import Mathlib

/-!
Shallow embedding of the chess engine (`scripts/chess_game.py`, `scripts/chess_bot.py`).

Python's mutable `ChessBoard` object is embedded as an immutable structure; every
mutating method becomes a function returning the updated board (paired with the
Python return value where one exists).  Machine integers are `Int` (Python ints are
unbounded).  Coordinates are `Int` pairs, bounds-checked exactly where the Python
code checks them (`is_valid_position` / the guards inside `get_piece`, `set_piece`).
-/

namespace Chess

inductive PieceType where
  | pawn | rook | knight | bishop | queen | king
deriving DecidableEq

inductive Color where
  | white | black
deriving DecidableEq

/-- `Color.BLACK if color == Color.WHITE else Color.WHITE` — the opponent色 flip
used throughout the Python code. -/
def other : Color → Color
  | Color.white => Color.black
  | Color.black => Color.white

/-- `Piece.__init__`: type, color and a `has_moved` flag initialised to `False`. -/
structure Piece where
  type : PieceType
  color : Color
  has_moved : Bool
deriving DecidableEq

/-- `Move.__init__`.  Coordinates are (row, col) pairs. -/
structure Move where
  from_pos : Int × Int
  to_pos : Int × Int
  promotion : Option PieceType := none
  is_castling : Bool := false
  is_en_passant : Bool := false
deriving DecidableEq

/-- `Move.__eq__`: equality is (from_pos, to_pos, promotion); the two flags are not
part of move identity. -/
def moveEqb (a b : Move) : Bool :=
  a.from_pos == b.from_pos && a.to_pos == b.to_pos && a.promotion == b.promotion

/-- The mutable state of `ChessBoard`.  `board` is the 8×8 grid (row-major, row 0 at
the top as in the Python code). -/
structure ChessBoard where
  board : List (List (Option Piece))
  current_player : Color
  move_history : List Move
  en_passant_target : Option (Int × Int)
  halfmove_clock : Int
  fullmove_number : Int
deriving DecidableEq

/-- `ChessBoard.is_valid_position`. -/
def is_valid_position (row col : Int) : Bool :=
  0 ≤ row && row < 8 && 0 ≤ col && col < 8

/-- `ChessBoard.get_piece`: bounds-checked read, `None` outside the board. -/
def get_piece (b : ChessBoard) (row col : Int) : Option Piece :=
  if is_valid_position row col then
    (b.board.getD row.toNat []).getD col.toNat none
  else
    none

/-- `ChessBoard.set_piece`: bounds-checked write, no-op outside the board. -/
def set_piece (b : ChessBoard) (row col : Int) (p : Option Piece) : ChessBoard :=
  if is_valid_position row col then
    { b with board := b.board.set row.toNat ((b.board.getD row.toNat []).set col.toNat p) }
  else
    b

/-- The row-major scan order `for row in range(8): for col in range(8)` shared by
`get_all_pieces` and `find_king`. -/
def allSquares : List (Int × Int) :=
  (List.range 8).flatMap fun r => (List.range 8).map fun c => ((r : Int), (c : Int))

/-- `ChessBoard.get_all_pieces`. -/
def get_all_pieces (b : ChessBoard) (color : Color) : List (Int × Int × Piece) :=
  allSquares.filterMap fun rc =>
    match get_piece b rc.1 rc.2 with
    | some p => if p.color = color then some (rc.1, rc.2, p) else none
    | none => none

/-- `ChessBoard.find_king`: first king of the colour in row-major order. -/
def find_king (b : ChessBoard) (color : Color) : Option (Int × Int) :=
  (allSquares.find? fun rc =>
    match get_piece b rc.1 rc.2 with
    | some p => p.type = PieceType.king && p.color = color
    | none => false)

/-- `ChessBoard.can_pawn_attack`: capture-direction geometry only. -/
def can_pawn_attack (from_row from_col to_row to_col : Int) (color : Color) : Bool :=
  let direction : Int := if color = Color.white then -1 else 1
  to_row == from_row + direction && (to_col - from_col).natAbs == 1

/-- The body of the `while` loop of `ChessBoard.is_path_clear`, with explicit fuel.
All call sites walk an aligned ray between two on-board squares, so at most 7 steps
are ever taken and the fuel (16) is never exhausted. -/
def pathClearAux (b : ChessBoard) (to_row to_col row_step col_step : Int) :
    Int → Int → Nat → Bool
  | _, _, 0 => true
  | cur_row, cur_col, fuel + 1 =>
    if cur_row == to_row && cur_col == to_col then true
    else if (get_piece b cur_row cur_col).isSome then false
    else pathClearAux b to_row to_col row_step col_step
      (cur_row + row_step) (cur_col + col_step) fuel

/-- `ChessBoard.is_path_clear`. -/
def is_path_clear (b : ChessBoard) (from_row from_col to_row to_col : Int) : Bool :=
  let row_step : Int := if from_row == to_row then 0 else if to_row > from_row then 1 else -1
  let col_step : Int := if from_col == to_col then 0 else if to_col > from_col then 1 else -1
  pathClearAux b to_row to_col row_step col_step (from_row + row_step) (from_col + col_step) 16

/-- `ChessBoard.can_rook_move`. -/
def can_rook_move (b : ChessBoard) (from_row from_col to_row to_col : Int) : Bool :=
  if from_row != to_row && from_col != to_col then false
  else is_path_clear b from_row from_col to_row to_col

/-- `ChessBoard.can_knight_move`. -/
def can_knight_move (from_row from_col to_row to_col : Int) : Bool :=
  let row_diff := (to_row - from_row).natAbs
  let col_diff := (to_col - from_col).natAbs
  (row_diff == 2 && col_diff == 1) || (row_diff == 1 && col_diff == 2)

/-- `ChessBoard.can_bishop_move`. -/
def can_bishop_move (b : ChessBoard) (from_row from_col to_row to_col : Int) : Bool :=
  if (to_row - from_row).natAbs != (to_col - from_col).natAbs then false
  else is_path_clear b from_row from_col to_row to_col

/-- `ChessBoard.can_king_move`. -/
def can_king_move (from_row from_col to_row to_col : Int) : Bool :=
  (to_row - from_row).natAbs ≤ 1 && (to_col - from_col).natAbs ≤ 1

/-- `ChessBoard.can_piece_attack_square`. -/
def can_piece_attack_square (b : ChessBoard) (from_row from_col to_row to_col : Int) : Bool :=
  match get_piece b from_row from_col with
  | none => false
  | some piece =>
    match piece.type with
    | PieceType.pawn => can_pawn_attack from_row from_col to_row to_col piece.color
    | PieceType.rook => can_rook_move b from_row from_col to_row to_col
    | PieceType.knight => can_knight_move from_row from_col to_row to_col
    | PieceType.bishop => can_bishop_move b from_row from_col to_row to_col
    | PieceType.queen =>
        can_rook_move b from_row from_col to_row to_col ||
        can_bishop_move b from_row from_col to_row to_col
    | PieceType.king => can_king_move from_row from_col to_row to_col

/-- `ChessBoard.is_square_attacked`. -/
def is_square_attacked (b : ChessBoard) (row col : Int) (by_color : Color) : Bool :=
  (get_all_pieces b by_color).any fun pcp =>
    can_piece_attack_square b pcp.1 pcp.2.1 row col

/-- `ChessBoard.is_in_check`: `False` when the king is absent. -/
def is_in_check (b : ChessBoard) (color : Color) : Bool :=
  match find_king b color with
  | none => false
  | some kp => is_square_attacked b kp.1 kp.2 (other color)

/-- The promotion expansion order `[QUEEN, ROOK, BISHOP, KNIGHT]`. -/
def promotionKinds : List PieceType :=
  [PieceType.queen, PieceType.rook, PieceType.bishop, PieceType.knight]

/-- `ChessBoard.generate_pawn_moves`. -/
def generate_pawn_moves (b : ChessBoard) (row col : Int) (color : Color) : List Move :=
  let direction : Int := if color = Color.white then -1 else 1
  let start_row : Int := if color = Color.white then 6 else 1
  let promotion_row : Int := if color = Color.white then 0 else 7
  let new_row := row + direction
  let forward : List Move :=
    if is_valid_position new_row col && (get_piece b new_row col).isNone then
      if new_row == promotion_row then
        promotionKinds.map fun pk => { from_pos := (row, col), to_pos := (new_row, col), promotion := some pk }
      else
        ({ from_pos := (row, col), to_pos := (new_row, col) } : Move) ::
          (if row == start_row && (get_piece b (new_row + direction) col).isNone then
            [{ from_pos := (row, col), to_pos := (new_row + direction, col) }]
          else [])
    else []
  let capture (col_offset : Int) : List Move :=
    let new_col := col + col_offset
    if is_valid_position new_row new_col then
      (match get_piece b new_row new_col with
       | some target =>
         if target.color ≠ color then
           if new_row == promotion_row then
             promotionKinds.map fun pk =>
               { from_pos := (row, col), to_pos := (new_row, new_col), promotion := some pk }
           else
             [{ from_pos := (row, col), to_pos := (new_row, new_col) }]
         else []
       | none => []) ++
      (if b.en_passant_target == some (new_row, new_col) then
        [{ from_pos := (row, col), to_pos := (new_row, new_col), is_en_passant := true }]
      else [])
    else []
  forward ++ capture (-1) ++ capture 1

/-- One sliding ray of `generate_rook_moves` / `generate_bishop_moves`
(`for i in range(1, 8)` with `break`s).  `pc` is the colour of the piece at the ray's
origin, which the Python code re-reads from the board at every comparison. -/
def rayAux (b : ChessBoard) (row col : Int) (pc : Color) (row_dir col_dir : Int) :
    Int → Int → Nat → List Move
  | _, _, 0 => []
  | cur_row, cur_col, fuel + 1 =>
    if is_valid_position cur_row cur_col then
      match get_piece b cur_row cur_col with
      | some target =>
        if target.color ≠ pc then [{ from_pos := (row, col), to_pos := (cur_row, cur_col) }]
        else []
      | none =>
        ({ from_pos := (row, col), to_pos := (cur_row, cur_col) } : Move) ::
          rayAux b row col pc row_dir col_dir (cur_row + row_dir) (cur_col + col_dir) fuel
    else []

/-- The colour of the piece at a square, as read by the sliding/knight generators
(`self.get_piece(row, col).color`); those generators are only ever invoked on
occupied squares, so the `white` default is never observable through them. -/
def pieceColorAt (b : ChessBoard) (row col : Int) : Color :=
  match get_piece b row col with
  | some p => p.color
  | none => Color.white

/-- `ChessBoard.generate_rook_moves`. -/
def generate_rook_moves (b : ChessBoard) (row col : Int) : List Move :=
  let pc := pieceColorAt b row col
  ([((0 : Int), (1 : Int)), (0, -1), (1, 0), (-1, 0)]).flatMap fun d =>
    rayAux b row col pc d.1 d.2 (row + d.1) (col + d.2) 7

/-- `ChessBoard.generate_bishop_moves`. -/
def generate_bishop_moves (b : ChessBoard) (row col : Int) : List Move :=
  let pc := pieceColorAt b row col
  ([((1 : Int), (1 : Int)), (1, -1), (-1, 1), (-1, -1)]).flatMap fun d =>
    rayAux b row col pc d.1 d.2 (row + d.1) (col + d.2) 7

/-- `ChessBoard.generate_knight_moves`. -/
def generate_knight_moves (b : ChessBoard) (row col : Int) : List Move :=
  let pc := pieceColorAt b row col
  ([((2 : Int), (1 : Int)), (2, -1), (-2, 1), (-2, -1), (1, 2), (1, -2), (-1, 2), (-1, -2)]).filterMap
    fun d =>
      let new_row := row + d.1
      let new_col := col + d.2
      if is_valid_position new_row new_col then
        match get_piece b new_row new_col with
        | some target =>
          if target.color ≠ pc then some { from_pos := (row, col), to_pos := (new_row, new_col) }
          else none
        | none => some { from_pos := (row, col), to_pos := (new_row, new_col) }
      else none

/-- `ChessBoard.generate_queen_moves`. -/
def generate_queen_moves (b : ChessBoard) (row col : Int) : List Move :=
  generate_rook_moves b row col ++ generate_bishop_moves b row col

/-- `ChessBoard.generate_king_moves` (single steps plus the two castling offers). -/
def generate_king_moves (b : ChessBoard) (row col : Int) (color : Color) : List Move :=
  let steps : List Move :=
    ([(-1 : Int), 0, 1]).flatMap fun row_offset =>
      ([(-1 : Int), 0, 1]).filterMap fun col_offset =>
        if row_offset == 0 && col_offset == 0 then none
        else
          let new_row := row + row_offset
          let new_col := col + col_offset
          if is_valid_position new_row new_col then
            match get_piece b new_row new_col with
            | some target =>
              if target.color ≠ color then
                some { from_pos := (row, col), to_pos := (new_row, new_col) }
              else none
            | none => some { from_pos := (row, col), to_pos := (new_row, new_col) }
          else none
  let kingUnmoved :=
    match get_piece b row col with
    | some king => !king.has_moved
    | none => true
  let castles : List Move :=
    if kingUnmoved && !is_in_check b color then
      (match get_piece b row 7 with
       | some rook =>
         if rook.type = PieceType.rook && !rook.has_moved &&
            (get_piece b row 5).isNone && (get_piece b row 6).isNone &&
            !is_square_attacked b row 5 (other color) &&
            !is_square_attacked b row 6 (other color) then
           [{ from_pos := (row, col), to_pos := (row, 6), is_castling := true }]
         else []
       | none => []) ++
      (match get_piece b row 0 with
       | some rook =>
         if rook.type = PieceType.rook && !rook.has_moved &&
            (get_piece b row 1).isNone && (get_piece b row 2).isNone &&
            (get_piece b row 3).isNone &&
            !is_square_attacked b row 2 (other color) &&
            !is_square_attacked b row 3 (other color) then
           [{ from_pos := (row, col), to_pos := (row, 2), is_castling := true }]
         else []
       | none => [])
    else []
  steps ++ castles

/-- `ChessBoard.generate_piece_moves`. -/
def generate_piece_moves (b : ChessBoard) (row col : Int) (piece : Piece) : List Move :=
  match piece.type with
  | PieceType.pawn => generate_pawn_moves b row col piece.color
  | PieceType.rook => generate_rook_moves b row col
  | PieceType.knight => generate_knight_moves b row col
  | PieceType.bishop => generate_bishop_moves b row col
  | PieceType.queen => generate_queen_moves b row col
  | PieceType.king => generate_king_moves b row col piece.color

/-- `ChessBoard.handle_castling`. -/
def handle_castling (b : ChessBoard) (m : Move) : ChessBoard :=
  let fr := m.from_pos.1
  let fc := m.from_pos.2
  let tr := m.to_pos.1
  let tc := m.to_pos.2
  let king := get_piece b fr fc
  let b1 := set_piece (set_piece b tr tc king) fr fc none
  if tc == 6 then
    let rook := get_piece b1 fr 7
    set_piece (set_piece b1 fr 5 rook) fr 7 none
  else
    let rook := get_piece b1 fr 0
    set_piece (set_piece b1 fr 3 rook) fr 0 none

/-- `ChessBoard.handle_en_passant`: relocate the pawn, then clear the captured
pawn's square `(from_row, to_col)`. -/
def handle_en_passant (b : ChessBoard) (m : Move) : ChessBoard :=
  let fr := m.from_pos.1
  let fc := m.from_pos.2
  let tr := m.to_pos.1
  let tc := m.to_pos.2
  let pawn := get_piece b fr fc
  let b1 := set_piece (set_piece b tr tc pawn) fr fc none
  set_piece b1 fr tc none

/-- `ChessBoard.update_en_passant_target`: clear, then set to the intermediate
square when `piece` is a pawn that just moved two rows (`//` agrees with `/` here
because the sum of the two rows is even when their difference is 2). -/
def update_en_passant_target (b : ChessBoard) (m : Move) (piece : Piece) : ChessBoard :=
  if piece.type = PieceType.pawn && (m.to_pos.1 - m.from_pos.1).natAbs == 2 then
    { b with en_passant_target := some ((m.from_pos.1 + m.to_pos.1) / 2, m.to_pos.2) }
  else
    { b with en_passant_target := none }

/-- The board-array edits of `ChessBoard.make_move` (special-move handling or
plain relocation with promotion, then setting the moved piece's `has_moved`
flag), given the piece read from the origin square. -/
def moveBoards (b : ChessBoard) (m : Move) (piece : Piece) : ChessBoard :=
  let fr := m.from_pos.1
  let fc := m.from_pos.2
  let tr := m.to_pos.1
  let tc := m.to_pos.2
  let b1 :=
    if m.is_castling then handle_castling b m
    else if m.is_en_passant then handle_en_passant b m
    else
      let b' := set_piece (set_piece b tr tc (some piece)) fr fc none
      match m.promotion with
      | some pk => set_piece b' tr tc (some { type := pk, color := piece.color, has_moved := false })
      | none => b'
  match get_piece b1 tr tc with
  | some moved_piece => set_piece b1 tr tc (some { moved_piece with has_moved := true })
  | none => b1

/-- The body of `ChessBoard.make_move` after the optional legality gate: the part
that actually mutates the board.  Returns `(success flag, updated board)`. -/
def makeMoveBody (b : ChessBoard) (m : Move) : Bool × ChessBoard :=
  let fr := m.from_pos.1
  let fc := m.from_pos.2
  let tr := m.to_pos.1
  let tc := m.to_pos.2
  match get_piece b fr fc with
  | none => (false, b)
  | some piece =>
    let b2 := moveBoards b m piece
    let b3 := update_en_passant_target b2 m piece
    let b4 := { b3 with move_history := b3.move_history ++ [m] }
    let b5 :=
      if piece.type = PieceType.pawn || (get_piece b4 tr tc).isSome then
        { b4 with halfmove_clock := 0 }
      else
        { b4 with halfmove_clock := b4.halfmove_clock + 1 }
    let b6 :=
      if b5.current_player = Color.black then
        { b5 with fullmove_number := b5.fullmove_number + 1 }
      else b5
    (true, { b6 with current_player := other b6.current_player })

/-- `ChessBoard.is_legal_move`: simulate on a copy with legality enforcement off,
then test the mover's king (`self.current_player`, not the piece's colour). -/
def is_legal_move (b : ChessBoard) (m : Move) : Bool :=
  !(is_in_check (makeMoveBody b m).2 b.current_player)

/-- `ChessBoard.generate_legal_moves`. -/
def generate_legal_moves (b : ChessBoard) (color : Color) : List Move :=
  ((get_all_pieces b color).flatMap fun rcp =>
    generate_piece_moves b rcp.1 rcp.2.1 rcp.2.2).filter (is_legal_move b)

/-- `ChessBoard.make_move`: with `check_legality` on, fail (board untouched) unless
the move is in the legal set under `Move.__eq__`; otherwise run the mutation body. -/
def make_move (b : ChessBoard) (m : Move) (check_legality : Bool) : Bool × ChessBoard :=
  if check_legality then
    if (generate_legal_moves b b.current_player).any (fun lm => moveEqb m lm) then
      makeMoveBody b m
    else
      (false, b)
  else
    makeMoveBody b m

/-- `ChessBoard.is_checkmate`. -/
def is_checkmate (b : ChessBoard) (color : Color) : Bool :=
  is_in_check b color && (generate_legal_moves b color).length == 0

/-- `ChessBoard.is_stalemate`. -/
def is_stalemate (b : ChessBoard) (color : Color) : Bool :=
  !is_in_check b color && (generate_legal_moves b color).length == 0

/-- The tagged outcome of `ChessBoard.is_game_over`.  The Python code returns
result strings; `checkmateWin w` stands for `"Checkmate! {w} wins!"` (the only
results containing the substring `"wins"`), `staleDraw` for the stalemate string and
`fiftyDraw` for the 50-move-rule string. -/
inductive GameResult where
  | checkmateWin (winner : Color)
  | staleDraw
  | fiftyDraw
deriving DecidableEq

/-- `ChessBoard.is_game_over`: `none` when the game is not over. -/
def is_game_over (b : ChessBoard) : Option GameResult :=
  if is_checkmate b b.current_player then
    some (GameResult.checkmateWin (other b.current_player))
  else if is_stalemate b b.current_player then
    some GameResult.staleDraw
  else if 100 ≤ b.halfmove_clock then
    some GameResult.fiftyDraw
  else
    none

/-- The back-rank piece order of `setup_initial_position`. -/
def backRank (c : Color) : List (Option Piece) :=
  [PieceType.rook, PieceType.knight, PieceType.bishop, PieceType.queen,
   PieceType.king, PieceType.bishop, PieceType.knight, PieceType.rook].map
    fun t => some { type := t, color := c, has_moved := false }

/-- A rank of eight pawns. -/
def pawnRank (c : Color) : List (Option Piece) :=
  List.replicate 8 (some { type := PieceType.pawn, color := c, has_moved := false })

/-- An empty rank. -/
def emptyRank : List (Option Piece) := List.replicate 8 none

/-- `ChessBoard.__init__` followed by `setup_initial_position`. -/
def initialBoard : ChessBoard where
  board := [backRank Color.black, pawnRank Color.black, emptyRank, emptyRank,
            emptyRank, emptyRank, pawnRank Color.white, backRank Color.white]
  current_player := Color.white
  move_history := []
  en_passant_target := none
  halfmove_clock := 0
  fullmove_number := 1

/-! ## The bot (`scripts/chess_bot.py`) -/

/-- Scores.  All values the Python search actually computes are ints, but
`get_best_move` / `minimax` seed their accumulators and windows with
`float('-inf')` / `float('inf')`, which compare below/above every int; `⊥` and `⊤`
of `WithBot (WithTop ℤ)` model exactly those two sentinels. -/
abbrev Score := WithBot (WithTop ℤ)

/-- An ordinary integer score. -/
def intScore (n : ℤ) : Score := ((n : WithTop ℤ) : Score)

/-- `ChessBot.__init__` state: colour and clamped difficulty. -/
structure ChessBot where
  color : Color
  difficulty : Int

/-- `ChessBot.__init__`: `self.difficulty = max(1, min(difficulty, 6))`. -/
def mkBot (color : Color) (difficulty : Int) : ChessBot :=
  { color := color, difficulty := max 1 (min difficulty 6) }

/-- `ChessBot.piece_values`. -/
def piece_values : PieceType → Int
  | PieceType.pawn => 100
  | PieceType.knight => 320
  | PieceType.bishop => 330
  | PieceType.rook => 500
  | PieceType.queen => 900
  | PieceType.king => 20000

/-- `ChessBot.pawn_table`. -/
def pawn_table : List (List Int) :=
  [[0, 0, 0, 0, 0, 0, 0, 0],
   [50, 50, 50, 50, 50, 50, 50, 50],
   [10, 10, 20, 30, 30, 20, 10, 10],
   [5, 5, 10, 25, 25, 10, 5, 5],
   [0, 0, 0, 20, 20, 0, 0, 0],
   [5, -5, -10, 0, 0, -10, -5, 5],
   [5, 10, 10, -20, -20, 10, 10, 5],
   [0, 0, 0, 0, 0, 0, 0, 0]]

/-- `ChessBot.knight_table`. -/
def knight_table : List (List Int) :=
  [[-50, -40, -30, -30, -30, -30, -40, -50],
   [-40, -20, 0, 0, 0, 0, -20, -40],
   [-30, 0, 10, 15, 15, 10, 0, -30],
   [-30, 5, 15, 20, 20, 15, 5, -30],
   [-30, 0, 15, 20, 20, 15, 0, -30],
   [-30, 5, 10, 15, 15, 10, 5, -30],
   [-40, -20, 0, 5, 5, 0, -20, -40],
   [-50, -40, -30, -30, -30, -30, -40, -50]]

/-- `ChessBot.bishop_table`. -/
def bishop_table : List (List Int) :=
  [[-20, -10, -10, -10, -10, -10, -10, -20],
   [-10, 0, 0, 0, 0, 0, 0, -10],
   [-10, 0, 5, 10, 10, 5, 0, -10],
   [-10, 5, 5, 10, 10, 5, 5, -10],
   [-10, 0, 10, 10, 10, 10, 0, -10],
   [-10, 10, 10, 10, 10, 10, 10, -10],
   [-10, 5, 0, 0, 0, 0, 5, -10],
   [-20, -10, -10, -10, -10, -10, -10, -20]]

/-- `ChessBot.rook_table`. -/
def rook_table : List (List Int) :=
  [[0, 0, 0, 0, 0, 0, 0, 0],
   [5, 10, 10, 10, 10, 10, 10, 5],
   [-5, 0, 0, 0, 0, 0, 0, -5],
   [-5, 0, 0, 0, 0, 0, 0, -5],
   [-5, 0, 0, 0, 0, 0, 0, -5],
   [-5, 0, 0, 0, 0, 0, 0, -5],
   [-5, 0, 0, 0, 0, 0, 0, -5],
   [0, 0, 0, 5, 5, 0, 0, 0]]

/-- `ChessBot.queen_table`. -/
def queen_table : List (List Int) :=
  [[-20, -10, -10, -5, -5, -10, -10, -20],
   [-10, 0, 0, 0, 0, 0, 0, -10],
   [-10, 0, 5, 5, 5, 5, 0, -10],
   [-5, 0, 5, 5, 5, 5, 0, -5],
   [0, 0, 5, 5, 5, 5, 0, -5],
   [-10, 5, 5, 5, 5, 5, 0, -10],
   [-10, 0, 5, 0, 0, 0, 0, -10],
   [-20, -10, -10, -5, -5, -10, -10, -20]]

/-- `ChessBot.king_middle_game_table`. -/
def king_middle_game_table : List (List Int) :=
  [[-30, -40, -40, -50, -50, -40, -40, -30],
   [-30, -40, -40, -50, -50, -40, -40, -30],
   [-30, -40, -40, -50, -50, -40, -40, -30],
   [-30, -40, -40, -50, -50, -40, -40, -30],
   [-20, -30, -30, -40, -40, -30, -30, -20],
   [-10, -20, -20, -20, -20, -20, -20, -10],
   [20, 20, 0, 0, 0, 0, 20, 20],
   [20, 30, 10, 0, 0, 10, 30, 20]]

/-- `ChessBot.get_piece_value`: material plus piece-square bonus, with the table
row mirrored for the second side. -/
def get_piece_value (piece : Piece) (row col : Int) : Int :=
  let table_row : Int := if piece.color = Color.white then row else 7 - row
  let lookup (t : List (List Int)) : Int := (t.getD table_row.toNat []).getD col.toNat 0
  let positional_bonus :=
    match piece.type with
    | PieceType.pawn => lookup pawn_table
    | PieceType.knight => lookup knight_table
    | PieceType.bishop => lookup bishop_table
    | PieceType.rook => lookup rook_table
    | PieceType.queen => lookup queen_table
    | PieceType.king => lookup king_middle_game_table
  piece_values piece.type + positional_bonus

/-- `ChessBot.evaluate_position`, embedded with the board state threaded
explicitly: the Python method mutates `board.current_player` to count the
opponent's moves and restores it before returning, so the embedding returns
`(score, board as left behind by the call)`. -/
def evaluate_position (bot : ChessBot) (b : ChessBoard) : Int × ChessBoard :=
  let material :=
    allSquares.foldl
      (fun acc rc =>
        match get_piece b rc.1 rc.2 with
        | some piece =>
          if piece.color = bot.color then acc + get_piece_value piece rc.1 rc.2
          else acc - get_piece_value piece rc.1 rc.2
        | none => acc)
      0
  let our_moves : Int := (generate_legal_moves b bot.color).length
  let opponent_color := other bot.color
  let original_player := b.current_player
  let btoggled := { b with current_player := opponent_color }
  let opponent_moves : Int := (generate_legal_moves btoggled opponent_color).length
  let brestored := { btoggled with current_player := original_player }
  let score := material + (our_moves - opponent_moves) * 10
  let score := if is_in_check brestored bot.color then score - 50 else score
  let score := if is_in_check brestored opponent_color then score + 50 else score
  (score, brestored)

/-- The score computed by `ChessBot.evaluate_position`. -/
def evalScore (bot : ChessBot) (b : ChessBoard) : Int :=
  (evaluate_position bot b).1

/-- The `move_priority` key of `ChessBot.order_moves` (captures with MVV-LVA,
promotions, and a +100 bonus when the move leaves the bot's opponent in check). -/
def move_priority (bot : ChessBot) (b : ChessBoard) (m : Move) : Int :=
  let captureScore :=
    match get_piece b m.to_pos.1 m.to_pos.2 with
    | some target =>
      piece_values target.type +
        (match get_piece b m.from_pos.1 m.from_pos.2 with
         | some attacker => piece_values target.type - piece_values attacker.type
         | none => 0)
    | none => 0
  let promoScore :=
    match m.promotion with
    | some pk => piece_values pk
    | none => 0
  let checkScore :=
    if is_in_check (makeMoveBody b m).2 (other bot.color) then 100 else 0
  captureScore + promoScore + checkScore

/-- `ChessBot.order_moves`: Python's `sorted(key=move_priority, reverse=True)` is a
stable descending sort; `insertionSort` with `priority m' ≤ priority m` realises
exactly that order. -/
def order_moves (bot : ChessBot) (b : ChessBoard) (moves : List Move) : List Move :=
  List.insertionSort (fun m m' => move_priority bot b m' ≤ move_priority bot b m) moves

/-- The terminal branch of `ChessBot.minimax`: the result-string dispatch
(`"wins" in result` and which side's name appears) expressed over `GameResult`. -/
def terminalScore (bot : ChessBot) (r : GameResult) (depth : Nat) : Score :=
  match r with
  | GameResult.checkmateWin w =>
    if w = bot.color then intScore (10000 + depth) else intScore (-10000 - depth)
  | _ => intScore 0

/-- `temp_board = self.copy_board(board); temp_board.make_move(move, check_legality=False)`. -/
def childBoard (b : ChessBoard) (m : Move) : ChessBoard :=
  (makeMoveBody b m).2

/-- The maximizing loop of `ChessBot.minimax`: fold with running best (`acc`),
window update `alpha = max(alpha, eval)` and the `beta <= alpha` break. -/
def abMaxFold (f : ChessBoard → Score → Score → Score) (b : ChessBoard) (beta : Score) :
    List Move → Score → Score → Score
  | [], _, acc => acc
  | m :: ms, alpha, acc =>
    let e := f (childBoard b m) alpha beta
    let acc' := max acc e
    let alpha' := max alpha e
    if beta ≤ alpha' then acc' else abMaxFold f b beta ms alpha' acc'

/-- The minimizing loop of `ChessBot.minimax`. -/
def abMinFold (f : ChessBoard → Score → Score → Score) (b : ChessBoard) (alpha : Score) :
    List Move → Score → Score → Score
  | [], _, acc => acc
  | m :: ms, beta, acc =>
    let e := f (childBoard b m) alpha beta
    let acc' := min acc e
    let beta' := min beta e
    if beta' ≤ alpha then acc' else abMinFold f b alpha ms beta' acc'

/-- `ChessBot.minimax`: terminal check first, then the depth-0 static evaluation,
then the stalemate guard, then the pruned maximizing/minimizing loop over the
heuristically ordered legal moves of `board.current_player`.  (The Python method
tests `is_game_over` before `depth == 0`; both tests are pure, so matching the
recursion depth outermost — as structural recursion wants — computes the same
score in every case, with the terminal check still performed first in each arm.) -/
def minimaxAB (bot : ChessBot) : Nat → ChessBoard → Score → Score → Bool → Score
  | 0, b, _, _, _ =>
    match is_game_over b with
    | some r => terminalScore bot r 0
    | none => intScore (evalScore bot b)
  | d + 1, b, alpha, beta, maximizing =>
    match is_game_over b with
    | some r => terminalScore bot r (d + 1)
    | none =>
      let legal := generate_legal_moves b b.current_player
      if legal.isEmpty then intScore 0
      else
        let ordered := order_moves bot b legal
        if maximizing then
          abMaxFold (fun c a bt => minimaxAB bot d c a bt false) b beta ordered alpha ⊥
        else
          abMinFold (fun c a bt => minimaxAB bot d c a bt true) b alpha ordered beta ⊤

/-- Modelled from the spec: exhaustive, non-pruned minimax — identical node logic
to `minimaxAB` (terminal scores, depth-0 evaluation, stalemate 0), but folding
plain `max`/`min` over the unordered legal moves with no alpha-beta window. -/
def minimaxPlain (bot : ChessBot) : Nat → ChessBoard → Bool → Score
  | 0, b, _ =>
    match is_game_over b with
    | some r => terminalScore bot r 0
    | none => intScore (evalScore bot b)
  | d + 1, b, maximizing =>
    match is_game_over b with
    | some r => terminalScore bot r (d + 1)
    | none =>
      let legal := generate_legal_moves b b.current_player
      if legal.isEmpty then intScore 0
      else if maximizing then
        legal.foldl (fun acc m => max acc (minimaxPlain bot d (childBoard b m) false)) ⊥
      else
        legal.foldl (fun acc m => min acc (minimaxPlain bot d (childBoard b m) true)) ⊤

/-- The root loop of `ChessBot.get_best_move` (difficulty ≥ 2): running
`(best_move, best_score)` with strict improvement (`score > best_score`), root
window `beta = float('inf')` and the same `beta <= alpha` break. -/
def bestFold (f : ChessBoard → Score → Score → Score) (b : ChessBoard) :
    List Move → Option Move → Score → Score → Option Move × Score
  | [], best_move, best_score, _ => (best_move, best_score)
  | m :: ms, best_move, best_score, alpha =>
    let e := f (childBoard b m) alpha ⊤
    let best' := if best_score < e then (some m, e) else (best_move, best_score)
    let alpha' := max alpha e
    if (⊤ : Score) ≤ alpha' then best' else bestFold f b ms best'.1 best'.2 alpha'

/-- The search branch of `ChessBot.get_best_move`, returning both the chosen move
and the best score it reports. -/
def get_best_core (bot : ChessBot) (b : ChessBoard) : Option Move × Score :=
  let legal := generate_legal_moves b bot.color
  let ordered := order_moves bot b legal
  bestFold (fun c a bt => minimaxAB bot (bot.difficulty - 1).toNat c a bt false) b
    ordered none ⊥ ⊥

/-- `random.choice`, abstracted over the random draw: an arbitrary index `seed`
selects an element of the (nonempty) list. -/
def random_choice (seed : Nat) (l : List Move) : Option Move :=
  l.get? (seed % l.length)

/-- `ChessBot.get_best_move`: `None` when the bot's side (`self.color`) has no
legal moves, a random legal move at difficulty 1, otherwise the alpha-beta search. -/
def get_best_move (bot : ChessBot) (seed : Nat) (b : ChessBoard) : Option Move :=
  let legal := generate_legal_moves b bot.color
  if legal.isEmpty then none
  else if bot.difficulty = 1 then random_choice seed legal
  else (get_best_core bot b).1

/-- Modelled from the spec: the exhaustive root score — the plain maximum of the
non-pruned minimax values of the children, over the unordered legal move list. -/
def best_score_plain (bot : ChessBot) (b : ChessBoard) : Score :=
  (generate_legal_moves b bot.color).foldl
    (fun acc m => max acc (minimaxPlain bot (bot.difficulty - 1).toNat (childBoard b m) false)) ⊥

/-! ## Concrete test positions -/

/-- An empty 8×8 board, white to move, all counters fresh. -/
def emptyB : ChessBoard where
  board := List.replicate 8 emptyRank
  current_player := Color.white
  move_history := []
  en_passant_target := none
  halfmove_clock := 0
  fullmove_number := 1

/-- Piece literal shorthand. -/
def pc (t : PieceType) (c : Color) (moved : Bool := false) : Option Piece :=
  some { type := t, color := c, has_moved := moved }

/-- Back-rank mate with the 50-move counter already expired: black king a8,
white queen b7 guarded by the white king c6, black to move, halfmove clock 100. -/
def mateB : ChessBoard :=
  { set_piece
      (set_piece
        (set_piece emptyB 0 0 (pc PieceType.king Color.black true))
        1 1 (pc PieceType.queen Color.white true))
      2 2 (pc PieceType.king Color.white true) with
    current_player := Color.black, halfmove_clock := 100 }

/-- Two bare kings, halfmove clock 100, white to move: neither checkmate nor
stalemate, so only the 50-move rule applies. -/
def kingsB : ChessBoard :=
  { set_piece
      (set_piece emptyB 7 4 (pc PieceType.king Color.white true))
      0 4 (pc PieceType.king Color.black true) with
    halfmove_clock := 100 }

/-- White to move, but black's knight b8 is pinned against the black king a8 by
the white rook h8: used to probe `generate_legal_moves` for the side *not* to
move. -/
def pinB : ChessBoard :=
  set_piece
    (set_piece
      (set_piece
        (set_piece emptyB 0 0 (pc PieceType.king Color.black true))
        0 1 (pc PieceType.knight Color.black true))
      0 7 (pc PieceType.rook Color.white true))
    7 7 (pc PieceType.king Color.white true)

/-- The pinned knight's jump b8→c6 in `pinB`. -/
def pinMove : Move := { from_pos := (0, 1), to_pos := (2, 2) }

/-- White is stalemated (king a8, black queen c7, black king b6, white to move),
while black still has moves. -/
def staleB : ChessBoard :=
  set_piece
    (set_piece
      (set_piece emptyB 0 0 (pc PieceType.king Color.white true))
      1 2 (pc PieceType.queen Color.black true))
    2 1 (pc PieceType.king Color.black true)

/-- Kings plus a white knight g1, halfmove clock 5, white to move. -/
def knightB : ChessBoard :=
  { set_piece
      (set_piece
        (set_piece emptyB 7 4 (pc PieceType.king Color.white true))
        0 4 (pc PieceType.king Color.black true))
      7 6 (pc PieceType.knight Color.white true) with
    halfmove_clock := 5 }

/-- The quiet knight development g1→f3 in `knightB`: no pawn move, no capture. -/
def knightMove : Move := { from_pos := (7, 6), to_pos := (5, 5) }

/-- An illegal knight jump in `knightB` (g1 to e4 is not a knight move). -/
def knightBadMove : Move := { from_pos := (7, 6), to_pos := (4, 4) }

/-- Kings plus a white pawn d2, white to move. -/
def pawnB : ChessBoard :=
  set_piece
    (set_piece
      (set_piece emptyB 7 4 (pc PieceType.king Color.white true))
      0 4 (pc PieceType.king Color.black true))
    6 3 (pc PieceType.pawn Color.white)

/-- The double pawn push d2→d4 in `pawnB`. -/
def pawnDouble : Move := { from_pos := (6, 3), to_pos := (4, 3) }

/-- A cramped corner: white king h1 and pawn h2, black king h3 — white's only
legal move is Kg1, keeping searches tiny. -/
def cornerB : ChessBoard :=
  set_piece
    (set_piece
      (set_piece emptyB 7 7 (pc PieceType.king Color.white true))
      6 7 (pc PieceType.pawn Color.white true))
    5 7 (pc PieceType.king Color.black true)

/-- The quiet opening a2→a3, the first element of white's legal move list in the
initial position (row-major piece scan). -/
def moveA3 : Move := { from_pos := (6, 0), to_pos := (5, 0) }

/-- The opening e2→e4. -/
def moveE4 : Move := { from_pos := (6, 4), to_pos := (4, 4) }

/-- The fail-soft alpha-beta contract: inside the window the result is exact,
outside it only bounds the true value `v`. -/
def ABspec (v r alpha beta : Score) : Prop :=
  (r ≤ alpha → v ≤ alpha) ∧ (beta ≤ r → beta ≤ v) ∧ (alpha < r → r < beta → r = v)

/-- A score that is an actual integer, not one of the two infinite sentinels. -/
def finS (s : Score) : Prop := s ≠ ⊥ ∧ s ≠ ⊤

/-- The en-passant target `make_move` is expected to leave behind: the
intermediate square of a double pawn push, otherwise `none` (reading the moving
piece off the pre-move board). -/
def expectedEp (b : ChessBoard) (m : Move) : Option (Int × Int) :=
  match get_piece b m.from_pos.1 m.from_pos.2 with
  | some p =>
    if p.type = PieceType.pawn && (m.to_pos.1 - m.from_pos.1).natAbs == 2 then
      some ((m.from_pos.1 + m.to_pos.1) / 2, m.to_pos.2)
    else none
  | none => none

/-! ## Theorems -/

section Helpers

@[simp] lemma set_piece_current_player (b : ChessBoard) (r c : Int) (p : Option Piece) :
    (set_piece b r c p).current_player = b.current_player := by
  unfold set_piece; split <;> rfl

@[simp] lemma set_piece_en_passant (b : ChessBoard) (r c : Int) (p : Option Piece) :
    (set_piece b r c p).en_passant_target = b.en_passant_target := by
  unfold set_piece; split <;> rfl

@[simp] lemma set_piece_halfmove (b : ChessBoard) (r c : Int) (p : Option Piece) :
    (set_piece b r c p).halfmove_clock = b.halfmove_clock := by
  unfold set_piece; split <;> rfl

@[simp] lemma set_piece_history (b : ChessBoard) (r c : Int) (p : Option Piece) :
    (set_piece b r c p).move_history = b.move_history := by
  unfold set_piece; split <;> rfl

@[simp] lemma set_piece_fullmove (b : ChessBoard) (r c : Int) (p : Option Piece) :
    (set_piece b r c p).fullmove_number = b.fullmove_number := by
  unfold set_piece; split <;> rfl

lemma get_all_pieces_sound {b : ChessBoard} {color : Color} {r c : Int} {p : Piece}
    (h : (r, c, p) ∈ get_all_pieces b color) :
    get_piece b r c = some p ∧ p.color = color := by
  unfold get_all_pieces at h
  obtain ⟨rc, _, hrc⟩ := List.mem_filterMap.1 h
  revert hrc
  cases hq : get_piece b rc.1 rc.2 with
  | none => simp
  | some q =>
    simp only []
    split
    · rename_i hcol
      intro he
      obtain ⟨h1, h2, h3⟩ : rc.1 = r ∧ rc.2 = c ∧ q = p := by
        simpa using he
      subst h1; subst h2; subst h3
      exact ⟨hq, hcol⟩
    · simp

lemma rayAux_from {b : ChessBoard} {row col : Int} {pc : Color} {rd cd : Int} :
    ∀ {cr cc : Int} {fuel : Nat} {m : Move},
      m ∈ rayAux b row col pc rd cd cr cc fuel → m.from_pos = (row, col) := by
  intro cr cc fuel
  induction fuel generalizing cr cc with
  | zero => intro m h; simp [rayAux] at h
  | succ n ih =>
    intro m h
    unfold rayAux at h
    split at h
    · revert h
      cases get_piece b cr cc with
      | some t =>
        simp only []
        split
        · intro h; obtain rfl : m = _ := by simpa using h
          rfl
        · simp
      | none =>
        intro h
        rcases List.mem_cons.1 h with rfl | h
        · rfl
        · exact ih h
    · simp at h

lemma generate_rook_moves_from {b : ChessBoard} {row col : Int} {m : Move}
    (h : m ∈ generate_rook_moves b row col) : m.from_pos = (row, col) := by
  unfold generate_rook_moves at h
  obtain ⟨d, _, hd⟩ := List.mem_flatMap.1 h
  exact rayAux_from hd

lemma generate_bishop_moves_from {b : ChessBoard} {row col : Int} {m : Move}
    (h : m ∈ generate_bishop_moves b row col) : m.from_pos = (row, col) := by
  unfold generate_bishop_moves at h
  obtain ⟨d, _, hd⟩ := List.mem_flatMap.1 h
  exact rayAux_from hd

lemma generate_knight_moves_from {b : ChessBoard} {row col : Int} {m : Move}
    (h : m ∈ generate_knight_moves b row col) : m.from_pos = (row, col) := by
  unfold generate_knight_moves at h
  obtain ⟨d, _, hd⟩ := List.mem_filterMap.1 h
  dsimp only at hd
  split at hd
  · revert hd
    cases get_piece b (row + d.1) (col + d.2) with
    | some t =>
      dsimp only
      split
      · intro hd; obtain rfl : _ = m := by simpa using hd
        rfl
      · simp
    | none =>
      intro hd; obtain rfl : _ = m := by simpa using hd
      rfl
  · simp at hd

lemma generate_pawn_moves_from {b : ChessBoard} {row col : Int} {color : Color} {m : Move}
    (h : m ∈ generate_pawn_moves b row col color) : m.from_pos = (row, col) := by
  suffices hall : ∀ m' ∈ generate_pawn_moves b row col color, m'.from_pos = (row, col) by
    exact hall m h
  unfold generate_pawn_moves
  dsimp only
  repeat'
    first
    | exact fun m hm => absurd hm (List.not_mem_nil m)
    | (refine List.forall_mem_append.2 ⟨?_, ?_⟩)
    | (refine List.forall_mem_cons.2 ⟨rfl, ?_⟩)
    | (intro m hm; obtain ⟨pk, _, rfl⟩ := List.mem_map.1 hm)
    | split

lemma generate_king_moves_from {b : ChessBoard} {row col : Int} {color : Color} {m : Move}
    (h : m ∈ generate_king_moves b row col color) : m.from_pos = (row, col) := by
  suffices hall : ∀ m' ∈ generate_king_moves b row col color, m'.from_pos = (row, col) by
    exact hall m h
  unfold generate_king_moves
  dsimp only
  refine List.forall_mem_append.2 ⟨?_, ?_⟩
  · intro m hm
    obtain ⟨ro, _, hro⟩ := List.mem_flatMap.1 hm
    obtain ⟨co, _, hco⟩ := List.mem_filterMap.1 hro
    revert hco
    split
    · simp
    · split
      · cases get_piece b (row + ro) (col + co) with
        | some t =>
          dsimp only
          split
          · intro hco; obtain rfl : _ = m := by simpa using hco
            rfl
          · simp
        | none =>
          intro hco; obtain rfl : _ = m := by simpa using hco
          rfl
      · simp
  · repeat'
      first
      | exact fun m hm => absurd hm (List.not_mem_nil m)
      | (refine List.forall_mem_append.2 ⟨?_, ?_⟩)
      | (refine List.forall_mem_cons.2 ⟨rfl, ?_⟩)
      | split

lemma generate_piece_moves_from {b : ChessBoard} {row col : Int} {p : Piece} {m : Move}
    (h : m ∈ generate_piece_moves b row col p) : m.from_pos = (row, col) := by
  unfold generate_piece_moves at h
  cases hp : p.type <;> rw [hp] at h
  · exact generate_pawn_moves_from h
  · exact generate_rook_moves_from h
  · exact generate_knight_moves_from h
  · exact generate_bishop_moves_from h
  · rcases List.mem_append.1 h with h | h
    · exact generate_rook_moves_from h
    · exact generate_bishop_moves_from h
  · exact generate_king_moves_from h

/-- Every move produced by `generate_legal_moves b color` starts on a square
occupied by one of `color`'s pieces. -/
lemma legal_move_origin {b : ChessBoard} {color : Color} {m : Move}
    (h : m ∈ generate_legal_moves b color) :
    ∃ p, get_piece b m.from_pos.1 m.from_pos.2 = some p ∧ p.color = color := by
  unfold generate_legal_moves at h
  have h' := List.mem_of_mem_filter h
  obtain ⟨rcp, hmem, hm⟩ := List.mem_flatMap.1 h'
  have hmem' : (rcp.1, rcp.2.1, rcp.2.2) ∈ get_all_pieces b color := by simpa using hmem
  obtain ⟨hget, hcol⟩ := get_all_pieces_sound hmem'
  have hf := generate_piece_moves_from hm
  rw [hf]
  exact ⟨rcp.2.2, hget, hcol⟩

lemma set_piece_boardOnly (b : ChessBoard) (r c : Int) (p : Option Piece) :
    ∃ bd, set_piece b r c p = { b with board := bd } := by
  unfold set_piece; split
  · exact ⟨_, rfl⟩
  · exact ⟨b.board, rfl⟩

lemma boardOnly_set {b b' : ChessBoard} (h : ∃ bd, b' = { b with board := bd })
    (r c : Int) (p : Option Piece) :
    ∃ bd, set_piece b' r c p = { b with board := bd } := by
  obtain ⟨bd, rfl⟩ := h
  obtain ⟨bd', h'⟩ := set_piece_boardOnly { b with board := bd } r c p
  exact ⟨bd', h'⟩

/-- The combined board edits of a move touch only the `board` field: every
bookkeeping field survives `moveBoards` unchanged. -/
lemma moveBoards_boardOnly (b : ChessBoard) (m : Move) (piece : Piece) :
    ∃ bd, moveBoards b m piece = { b with board := bd } := by
  unfold moveBoards
  dsimp only
  have hb1 : ∀ b1 : ChessBoard, (∃ bd, b1 = { b with board := bd }) →
      ∃ bd, (match get_piece b1 m.to_pos.1 m.to_pos.2 with
             | some moved_piece =>
               set_piece b1 m.to_pos.1 m.to_pos.2 (some { moved_piece with has_moved := true })
             | none => b1) = { b with board := bd } := by
    intro b1 h1
    cases get_piece b1 m.to_pos.1 m.to_pos.2 with
    | some mp => exact boardOnly_set h1 _ _ _
    | none => exact h1
  apply hb1
  split
  · unfold handle_castling
    dsimp only
    split <;>
      exact boardOnly_set (boardOnly_set (boardOnly_set (set_piece_boardOnly b _ _ _) _ _ _) _ _ _) _ _ _
  · split
    · unfold handle_en_passant
      dsimp only
      exact boardOnly_set (boardOnly_set (set_piece_boardOnly b _ _ _) _ _ _) _ _ _
    · cases m.promotion with
      | some pk => exact boardOnly_set (boardOnly_set (set_piece_boardOnly b _ _ _) _ _ _) _ _ _
      | none => exact boardOnly_set (set_piece_boardOnly b _ _ _) _ _ _

lemma make_move_false (b : ChessBoard) (m : Move) :
    make_move b m false = makeMoveBody b m := rfl

lemma make_move_true (b : ChessBoard) (m : Move) :
    make_move b m true =
      if (generate_legal_moves b b.current_player).any (fun lm => moveEqb m lm) then
        makeMoveBody b m
      else (false, b) := rfl

lemma minimaxAB_terminal (bot : ChessBot) (depth : Nat) (b : ChessBoard)
    (alpha beta : Score) (mz : Bool) {r : GameResult} (hr : is_game_over b = some r) :
    minimaxAB bot depth b alpha beta mz = terminalScore bot r depth := by
  cases depth <;> (simp only [minimaxAB]; rw [hr])

/-- The success flag, next player, en-passant target and move history left behind
by a `makeMoveBody` run that found a piece on the origin square.  The board-array
edits (`set_piece`, the two special-move handlers) touch only the `board` field,
so the bookkeeping fields are determined by the tail of the method. -/
lemma makeMoveBody_fields {b : ChessBoard} {m : Move} {piece : Piece}
    (h : get_piece b m.from_pos.1 m.from_pos.2 = some piece) :
    (makeMoveBody b m).1 = true ∧
    (makeMoveBody b m).2.current_player = other b.current_player ∧
    (makeMoveBody b m).2.en_passant_target =
      (if piece.type = PieceType.pawn && (m.to_pos.1 - m.from_pos.1).natAbs == 2 then
        some ((m.from_pos.1 + m.to_pos.1) / 2, m.to_pos.2)
      else none) ∧
    (makeMoveBody b m).2.move_history = b.move_history ++ [m] := by
  unfold makeMoveBody
  dsimp only
  rw [h]
  dsimp only
  obtain ⟨bd, hbd⟩ := moveBoards_boardOnly b m piece
  rw [hbd]
  refine ⟨rfl, ?_, ?_, ?_⟩ <;>
    · unfold update_en_passant_target
      dsimp only
      repeat' split
      all_goals rfl

lemma finS_intScore (n : ℤ) : finS (intScore n) :=
  ⟨WithBot.coe_ne_bot, by simp [intScore]⟩

lemma finS_terminalScore (bot : ChessBot) (r : GameResult) (depth : Nat) :
    finS (terminalScore bot r depth) := by
  cases r with
  | checkmateWin w =>
    simp only [terminalScore]
    split <;> exact finS_intScore _
  | staleDraw => exact finS_intScore _
  | fiftyDraw => exact finS_intScore _

lemma finS_max {x y : Score} (hx : x ≠ ⊤) (hy : finS y) : finS (max x y) := by
  constructor
  · intro h
    exact hy.1 (max_eq_bot.1 h).2
  · intro h
    rcases max_eq_top.1 h with h | h
    · exact hx h
    · exact hy.2 h

lemma finS_min {x y : Score} (hx : x ≠ ⊥) (hy : finS y) : finS (min x y) := by
  constructor
  · intro h
    rcases min_eq_bot.1 h with h | h
    · exact hx h
    · exact hy.1 h
  · intro h
    exact hy.2 (min_eq_top.1 h).2

lemma abMaxFold_fin {f : ChessBoard → Score → Score → Score} {b : ChessBoard} {beta : Score}
    (hf : ∀ c a bt, finS (f c a bt)) :
    ∀ (ms : List Move) (alpha acc : Score), acc ≠ ⊤ → (acc ≠ ⊥ ∨ ms ≠ []) →
      finS (abMaxFold f b beta ms alpha acc)
  | [], alpha, acc, htop, hbot => by
    rcases hbot with hbot | hne
    · exact ⟨hbot, htop⟩
    · exact absurd rfl hne
  | m :: ms, alpha, acc, htop, _ => by
    simp only [abMaxFold]
    have he := hf (childBoard b m) alpha beta
    have hacc' : finS (max acc (f (childBoard b m) alpha beta)) := finS_max htop he
    split
    · exact hacc'
    · exact abMaxFold_fin hf ms _ _ hacc'.2 (Or.inl hacc'.1)

lemma abMinFold_fin {f : ChessBoard → Score → Score → Score} {b : ChessBoard} {alpha : Score}
    (hf : ∀ c a bt, finS (f c a bt)) :
    ∀ (ms : List Move) (beta acc : Score), acc ≠ ⊥ → (acc ≠ ⊤ ∨ ms ≠ []) →
      finS (abMinFold f b alpha ms beta acc)
  | [], beta, acc, hbot, htop => by
    rcases htop with htop | hne
    · exact ⟨hbot, htop⟩
    · exact absurd rfl hne
  | m :: ms, beta, acc, hbot, _ => by
    simp only [abMinFold]
    have he := hf (childBoard b m) alpha beta
    have hacc' : finS (min acc (f (childBoard b m) alpha beta)) := finS_min hbot he
    split
    · exact hacc'
    · exact abMinFold_fin hf ms _ _ hacc'.1 (Or.inl hacc'.2)

lemma order_moves_ne_nil {bot : ChessBot} {b : ChessBoard} {l : List Move} (h : l ≠ []) :
    order_moves bot b l ≠ [] := by
  intro h0
  apply h
  have hp := List.perm_insertionSort
    (fun m m' => move_priority bot b m' ≤ move_priority bot b m) l
  rw [order_moves] at h0
  rw [h0] at hp
  exact hp.symm.eq_nil

/-- `minimax` always returns an actual integer score: the sentinels `±inf` never
escape (every loop runs at least one iteration before they could). -/
lemma minimaxAB_fin (bot : ChessBot) :
    ∀ (depth : Nat) (b : ChessBoard) (alpha beta : Score) (mz : Bool),
      finS (minimaxAB bot depth b alpha beta mz)
  | 0, b, alpha, beta, mz => by
    simp only [minimaxAB]
    split
    · exact finS_terminalScore _ _ _
    · exact finS_intScore _
  | d + 1, b, alpha, beta, mz => by
    simp only [minimaxAB]
    split
    · exact finS_terminalScore _ _ _
    · split
      · exact finS_intScore _
      · rename_i hne
        have hlegal : generate_legal_moves b b.current_player ≠ [] := by
          intro h0
          rw [h0] at hne
          exact hne rfl
        have hord : order_moves bot b (generate_legal_moves b b.current_player) ≠ [] :=
          order_moves_ne_nil hlegal
        split
        · exact abMaxFold_fin (fun c a bt => minimaxAB_fin bot d c a bt false) _ _ _
            (by simp) (Or.inr hord)
        · exact abMinFold_fin (fun c a bt => minimaxAB_fin bot d c a bt true) _ _ _
            (by simp) (Or.inr hord)

lemma bestFold_mem {f : ChessBoard → Score → Score → Score} {b : ChessBoard} :
    ∀ (ms : List Move) (bm : Option Move) (bs alpha : Score) (m : Move),
      (bestFold f b ms bm bs alpha).1 = some m → bm = some m ∨ m ∈ ms
  | [], bm, bs, alpha, m => fun h => Or.inl h
  | m0 :: ms, bm, bs, alpha, m => by
    simp only [bestFold]
    intro h
    by_cases hlt : bs < f (childBoard b m0) alpha ⊤
    · rw [if_pos hlt] at h
      split at h
      · simp only at h
        rcases Option.some_inj.1 h with rfl
        exact Or.inr (List.mem_cons_self _ _)
      · rcases bestFold_mem ms _ _ _ m h with h' | h'
        · rcases Option.some_inj.1 h' with rfl
          exact Or.inr (List.mem_cons_self _ _)
        · exact Or.inr (List.mem_cons_of_mem _ h')
    · rw [if_neg hlt] at h
      split at h
      · exact Or.inl h
      · rcases bestFold_mem ms _ _ _ m h with h' | h'
        · exact Or.inl h'
        · exact Or.inr (List.mem_cons_of_mem _ h')

lemma bestFold_isSome {f : ChessBoard → Score → Score → Score} {b : ChessBoard}
    (hf : ∀ c a bt, finS (f c a bt)) :
    ∀ (ms : List Move) (bm : Option Move) (bs alpha : Score),
      (bm.isSome ∨ (bs = ⊥ ∧ ms ≠ [])) → (bestFold f b ms bm bs alpha).1.isSome
  | [], bm, bs, alpha, h => by
    rcases h with h | ⟨_, hne⟩
    · exact h
    · exact absurd rfl hne
  | m0 :: ms, bm, bs, alpha, h => by
    simp only [bestFold]
    have hsome : (if bs < f (childBoard b m0) alpha ⊤ then (some m0, f (childBoard b m0) alpha ⊤)
        else (bm, bs)).1.isSome := by
      rcases h with h | ⟨rfl, _⟩
      · split <;> simp [h]
      · rw [if_pos (bot_lt_iff_ne_bot.2 (hf (childBoard b m0) alpha ⊤).1)]
        rfl
    split
    · exact hsome
    · exact bestFold_isSome hf ms _ _ _ (Or.inl hsome)

/-! Facts about the plain `max`/`min` folds of the exhaustive minimax. -/

lemma foldl_maxg_init (g : Move → Score) :
    ∀ (l : List Move) (a : Score), a ≤ l.foldl (fun x m => max x (g m)) a
  | [], _ => le_refl _
  | m :: l, a => le_trans (le_max_left a (g m)) (foldl_maxg_init g l _)

lemma foldl_ming_init (g : Move → Score) :
    ∀ (l : List Move) (a : Score), l.foldl (fun x m => min x (g m)) a ≤ a
  | [], _ => le_refl _
  | m :: l, a => le_trans (foldl_ming_init g l _) (min_le_left a (g m))

lemma foldl_maxg_factor (g : Move → Score) :
    ∀ (l : List Move) (a : Score),
      l.foldl (fun x m => max x (g m)) a = max a (l.foldl (fun x m => max x (g m)) ⊥)
  | [], a => by simp
  | m :: l, a => by
    simp only [List.foldl_cons]
    rw [foldl_maxg_factor g l (max a (g m)), foldl_maxg_factor g l (max ⊥ (g m)),
      max_eq_right (bot_le : (⊥ : Score) ≤ g m), max_assoc]

lemma foldl_ming_factor (g : Move → Score) :
    ∀ (l : List Move) (a : Score),
      l.foldl (fun x m => min x (g m)) a = min a (l.foldl (fun x m => min x (g m)) ⊤)
  | [], a => by simp
  | m :: l, a => by
    simp only [List.foldl_cons]
    rw [foldl_ming_factor g l (min a (g m)), foldl_ming_factor g l (min ⊤ (g m)),
      min_eq_right (le_top : g m ≤ (⊤ : Score)), min_assoc]

lemma foldl_maxg_mem (g : Move → Score) :
    ∀ (l : List Move) (a : Score) (m : Move), m ∈ l → g m ≤ l.foldl (fun x m => max x (g m)) a
  | m0 :: l, a, m, h => by
    simp only [List.foldl_cons]
    rcases List.mem_cons.1 h with rfl | h
    · exact le_trans (le_max_right a (g m)) (foldl_maxg_init g l _)
    · exact foldl_maxg_mem g l _ m h

lemma foldl_maxg_perm (g : Move → Score) {l₁ l₂ : List Move} (hp : l₁.Perm l₂) :
    ∀ a : Score, l₁.foldl (fun x m => max x (g m)) a = l₂.foldl (fun x m => max x (g m)) a := by
  induction hp with
  | nil => intro a; rfl
  | cons x p ih => intro a; simp only [List.foldl_cons]; exact ih _
  | swap x y l => intro a; simp only [List.foldl_cons]; rw [sup_right_comm]
  | trans p q ih1 ih2 => intro a; rw [ih1 a, ih2 a]

lemma foldl_ming_perm (g : Move → Score) {l₁ l₂ : List Move} (hp : l₁.Perm l₂) :
    ∀ a : Score, l₁.foldl (fun x m => min x (g m)) a = l₂.foldl (fun x m => min x (g m)) a := by
  induction hp with
  | nil => intro a; rfl
  | cons x p ih => intro a; simp only [List.foldl_cons]; exact ih _
  | swap x y l => intro a; simp only [List.foldl_cons]; rw [inf_right_comm]
  | trans p q ih1 ih2 => intro a; rw [ih1 a, ih2 a]

lemma abMaxFold_ge_acc {f : ChessBoard → Score → Score → Score} {b : ChessBoard} {beta : Score} :
    ∀ (ms : List Move) (alpha acc : Score), acc ≤ abMaxFold f b beta ms alpha acc
  | [], _, _ => le_refl _
  | m :: ms, alpha, acc => by
    simp only [abMaxFold]
    split
    · exact le_max_left _ _
    · exact le_trans (le_max_left _ _) (abMaxFold_ge_acc ms _ _)

lemma abMinFold_le_acc {f : ChessBoard → Score → Score → Score} {b : ChessBoard} {alpha : Score} :
    ∀ (ms : List Move) (beta acc : Score), abMinFold f b alpha ms beta acc ≤ acc
  | [], _, _ => le_refl _
  | m :: ms, beta, acc => by
    simp only [abMinFold]
    split
    · exact min_le_left _ _
    · exact le_trans (abMinFold_le_acc ms _ _) (min_le_left _ _)

/-- The maximizing alpha-beta loop is a fail-soft refinement of the plain `max`
fold: below `alpha` it only bounds the exhaustive value, at or above `beta` it
only bounds it from below, and strictly inside the window it is exact. -/
lemma abMaxFold_spec {f : ChessBoard → Score → Score → Score} {b : ChessBoard}
    {beta : Score} (g : Move → Score) :
    ∀ (ms : List Move) (alpha acc : Score),
      (∀ m ∈ ms, ∀ a, a < beta → ABspec (g m) (f (childBoard b m) a beta) a beta) →
      alpha < beta → acc ≤ alpha →
      ABspec (ms.foldl (fun x m => max x (g m)) acc) (abMaxFold f b beta ms alpha acc) alpha beta
  | [], alpha, acc, _, _, _ => ⟨fun h => h, fun h => h, fun _ _ => rfl⟩
  | m :: ms, alpha, acc, hspec, hab, hacc => by
    simp only [abMaxFold, List.foldl_cons]
    have hspec0 := hspec m (List.mem_cons_self m ms) alpha hab
    split
    · -- beta <= max alpha e: pruning break
      rename_i hbr
      have hbe : beta ≤ f (childBoard b m) alpha beta := by
        rcases le_max_iff.1 hbr with h | h
        · exact absurd h (not_le.2 hab)
        · exact h
      have hgw : beta ≤ g m := hspec0.2.1 hbe
      refine ⟨?_, ?_, ?_⟩
      · intro hle
        have : beta ≤ alpha := le_trans hbe (le_trans (le_max_right _ _) hle)
        exact absurd this (not_le.2 hab)
      · intro _
        exact le_trans (le_trans hgw (le_max_right acc (g m))) (foldl_maxg_init g ms _)
      · intro _ h2
        have : beta < beta := lt_of_le_of_lt (le_trans hbe (le_max_right acc _)) h2
        exact absurd this (lt_irrefl beta)
    · -- no break: continue with the widened alpha
      rename_i hbr
      have hab' : max alpha (f (childBoard b m) alpha beta) < beta := not_le.1 hbr
      have hacc' : max acc (f (childBoard b m) alpha beta) ≤
          max alpha (f (childBoard b m) alpha beta) :=
        max_le_max hacc (le_refl _)
      have hih := abMaxFold_spec g ms (max alpha (f (childBoard b m) alpha beta))
        (max acc (f (childBoard b m) alpha beta))
        (fun m' hm' a ha => hspec m' (List.mem_cons_of_mem m hm') a ha) hab' hacc'
      by_cases hea : f (childBoard b m) alpha beta ≤ alpha
      · -- the child failed low: its true value is also at most alpha
        have hga : g m ≤ alpha := hspec0.1 hea
        rw [max_eq_left hea] at hih hab' ⊢
        rw [foldl_maxg_factor g ms (max acc (g m))]
        rw [foldl_maxg_factor g ms (max acc (f (childBoard b m) alpha beta))] at hih
        obtain ⟨s1, s2, s3⟩ := hih
        refine ⟨?_, ?_, ?_⟩
        · intro hle
          have hM := s1 hle
          exact max_le (max_le (le_trans hacc (le_refl _)) hga)
            (le_trans (le_max_right _ _) hM)
        · intro hge
          have hM := s2 hge
          rcases le_max_iff.1 hM with h | h
          · exact absurd (le_trans h (max_le hacc hea)) (not_le.2 hab)
          · exact le_trans h (le_max_right _ _)
        · intro h1 h2
          have hr := s3 h1 h2
          rw [hr]
          have hMgt : alpha <
              max (max acc (f (childBoard b m) alpha beta)) (ms.foldl (fun x m => max x (g m)) ⊥) := by
            rw [← hr]; exact h1
          have hM : alpha < ms.foldl (fun x m => max x (g m)) ⊥ := by
            rcases max_cases (max acc (f (childBoard b m) alpha beta))
              (ms.foldl (fun x m => max x (g m)) ⊥) with ⟨he, hle⟩ | ⟨he, hle⟩
            · rw [he] at hMgt
              exact absurd (max_le hacc hea) (not_le.2 hMgt)
            · rw [he] at hMgt
              exact hMgt
          rw [max_eq_right (le_trans (max_le hacc hea) (le_of_lt hM)),
            max_eq_right (le_trans (max_le hacc hga) (le_of_lt hM))]
      · -- the child's result is inside the window, hence exact
        have hae : alpha < f (childBoard b m) alpha beta := not_le.1 hea
        have hew : f (childBoard b m) alpha beta = g m :=
          hspec0.2.2 hae (lt_of_le_of_lt (le_max_right alpha _) hab')
        rw [← hew]
        rw [max_eq_right (le_of_lt hae)] at hih hab' ⊢
        obtain ⟨s1, s2, s3⟩ := hih
        have hge : max acc (f (childBoard b m) alpha beta) ≤
            abMaxFold f b beta ms (f (childBoard b m) alpha beta)
              (max acc (f (childBoard b m) alpha beta)) :=
          abMaxFold_ge_acc ms _ _
        have hre : f (childBoard b m) alpha beta ≤
            abMaxFold f b beta ms (f (childBoard b m) alpha beta)
              (max acc (f (childBoard b m) alpha beta)) :=
          le_trans (le_max_right _ _) hge
        refine ⟨?_, s2, ?_⟩
        · intro hle
          exact absurd (lt_of_lt_of_le hae (le_trans hre hle)) (lt_irrefl alpha)
        · intro _ h2
          rcases lt_or_eq_of_le hre with h3 | h3
          · exact s3 h3 h2
          · have hVge : f (childBoard b m) alpha beta ≤
                ms.foldl (fun x m => max x (g m)) (max acc (f (childBoard b m) alpha beta)) :=
              le_trans (le_max_right _ _) (foldl_maxg_init g ms _)
            have hVle := s1 (le_of_eq h3.symm)
            rw [← h3]
            exact le_antisymm hVge hVle

/-- The minimizing alpha-beta loop, dually. -/
lemma abMinFold_spec {f : ChessBoard → Score → Score → Score} {b : ChessBoard}
    {alpha : Score} (g : Move → Score) :
    ∀ (ms : List Move) (beta acc : Score),
      (∀ m ∈ ms, ∀ bt, alpha < bt → ABspec (g m) (f (childBoard b m) alpha bt) alpha bt) →
      alpha < beta → beta ≤ acc →
      ABspec (ms.foldl (fun x m => min x (g m)) acc) (abMinFold f b alpha ms beta acc) alpha beta
  | [], beta, acc, _, _, _ => ⟨fun h => h, fun h => h, fun _ _ => rfl⟩
  | m :: ms, beta, acc, hspec, hab, hacc => by
    simp only [abMinFold, List.foldl_cons]
    have hspec0 := hspec m (List.mem_cons_self m ms) beta hab
    split
    · -- min beta e <= alpha: pruning break
      rename_i hbr
      have hbe : f (childBoard b m) alpha beta ≤ alpha := by
        rcases min_le_iff.1 hbr with h | h
        · exact absurd h (not_le.2 hab)
        · exact h
      have hgw : g m ≤ alpha := hspec0.1 hbe
      refine ⟨?_, ?_, ?_⟩
      · intro _
        exact le_trans (foldl_ming_init g ms _) (le_trans (min_le_right acc (g m)) hgw)
      · intro hge
        have : beta ≤ alpha := le_trans (le_trans hge (min_le_right _ _)) hbe
        exact absurd this (not_le.2 hab)
      · intro h1 _
        have : alpha < alpha := lt_of_lt_of_le h1 (le_trans (min_le_right acc _) hbe)
        exact absurd this (lt_irrefl alpha)
    · -- no break: continue with the narrowed beta
      rename_i hbr
      have hab' : alpha < min beta (f (childBoard b m) alpha beta) := not_le.1 hbr
      have hacc' : min beta (f (childBoard b m) alpha beta) ≤
          min acc (f (childBoard b m) alpha beta) :=
        min_le_min hacc (le_refl _)
      have hih := abMinFold_spec g ms (min beta (f (childBoard b m) alpha beta))
        (min acc (f (childBoard b m) alpha beta))
        (fun m' hm' bt hbt => hspec m' (List.mem_cons_of_mem m hm') bt hbt) hab' hacc'
      by_cases hea : beta ≤ f (childBoard b m) alpha beta
      · -- the child failed high: its true value is also at least beta
        have hga : beta ≤ g m := hspec0.2.1 hea
        rw [min_eq_left hea] at hih hab' ⊢
        rw [foldl_ming_factor g ms (min acc (g m))]
        rw [foldl_ming_factor g ms (min acc (f (childBoard b m) alpha beta))] at hih
        obtain ⟨s1, s2, s3⟩ := hih
        refine ⟨?_, ?_, ?_⟩
        · intro hle
          have hM := s1 hle
          rcases min_le_iff.1 hM with h | h
          · exact absurd (le_trans (le_min hacc hea) h) (not_le.2 hab)
          · exact le_trans (min_le_right _ _) h
        · intro hge
          have hM := s2 hge
          exact le_min (le_min hacc hga) (le_trans hM (min_le_right _ _))
        · intro h1 h2
          have hr := s3 h1 h2
          rw [hr]
          have hMlt :
              min (min acc (f (childBoard b m) alpha beta)) (ms.foldl (fun x m => min x (g m)) ⊤) <
                beta := by
            rw [← hr]; exact h2
          have hM : ms.foldl (fun x m => min x (g m)) ⊤ < beta := by
            rcases min_cases (min acc (f (childBoard b m) alpha beta))
              (ms.foldl (fun x m => min x (g m)) ⊤) with ⟨he, hle⟩ | ⟨he, hle⟩
            · rw [he] at hMlt
              exact absurd (le_min hacc hea) (not_le.2 hMlt)
            · rw [he] at hMlt
              exact hMlt
          rw [min_eq_right (le_trans (le_of_lt hM) (le_min hacc hea)),
            min_eq_right (le_trans (le_of_lt hM) (le_min hacc hga))]
      · -- the child's result is inside the window, hence exact
        have hae : f (childBoard b m) alpha beta < beta := not_le.1 hea
        have hew : f (childBoard b m) alpha beta = g m :=
          hspec0.2.2 (lt_of_lt_of_le hab' (min_le_right beta _)) hae
        rw [← hew]
        rw [min_eq_right (le_of_lt hae)] at hih hab' ⊢
        obtain ⟨s1, s2, s3⟩ := hih
        have hge :
            abMinFold f b alpha ms (f (childBoard b m) alpha beta)
              (min acc (f (childBoard b m) alpha beta)) ≤
            min acc (f (childBoard b m) alpha beta) :=
          abMinFold_le_acc ms _ _
        have hre :
            abMinFold f b alpha ms (f (childBoard b m) alpha beta)
              (min acc (f (childBoard b m) alpha beta)) ≤
            f (childBoard b m) alpha beta :=
          le_trans hge (min_le_right _ _)
        refine ⟨s1, ?_, ?_⟩
        · intro hge'
          exact absurd (lt_of_le_of_lt (le_trans hge' hre) hae) (lt_irrefl beta)
        · intro h1 _
          rcases lt_or_eq_of_le hre with h3 | h3
          · exact s3 h1 h3
          · have hVle :
                ms.foldl (fun x m => min x (g m)) (min acc (f (childBoard b m) alpha beta)) ≤
                  f (childBoard b m) alpha beta :=
              le_trans (foldl_ming_init g ms _) (min_le_right _ _)
            have hVge := s2 (le_of_eq h3.symm)
            rw [h3]
            exact (le_antisymm hVle hVge).symm

lemma ABspec_rfl (v alpha beta : Score) : ABspec v v alpha beta :=
  ⟨fun h => h, fun h => h, fun _ _ => rfl⟩

/-- At every node and for every window `alpha < beta`, the pruned, move-ordered
`minimax` is a fail-soft refinement of exhaustive minimax. -/
lemma ab_plain_spec (bot : ChessBot) :
    ∀ (d : Nat) (b : ChessBoard) (mz : Bool) (alpha beta : Score),
      alpha < beta →
      ABspec (minimaxPlain bot d b mz) (minimaxAB bot d b alpha beta mz) alpha beta
  | 0, b, mz, alpha, beta => fun _ => by
    have he : minimaxAB bot 0 b alpha beta mz = minimaxPlain bot 0 b mz := by
      simp only [minimaxAB, minimaxPlain]
    rw [he]
    exact ABspec_rfl _ _ _
  | d + 1, b, mz, alpha, beta => fun hab => by
    simp only [minimaxAB, minimaxPlain]
    cases hg : is_game_over b with
    | some r => exact ABspec_rfl _ _ _
    | none =>
      by_cases hemp : (generate_legal_moves b b.current_player).isEmpty = true
      · rw [if_pos hemp, if_pos hemp]
        exact ABspec_rfl _ _ _
      · rw [if_neg hemp, if_neg hemp]
        cases mz
        · rw [if_neg Bool.false_ne_true, if_neg Bool.false_ne_true]
          unfold order_moves
          rw [← foldl_ming_perm (fun m => minimaxPlain bot d (childBoard b m) true)
            (List.perm_insertionSort
              (fun m m' => move_priority bot b m' ≤ move_priority bot b m)
              (generate_legal_moves b b.current_player)) ⊤]
          exact abMinFold_spec (fun m => minimaxPlain bot d (childBoard b m) true) _ beta ⊤
            (fun m _ bt hbt => ab_plain_spec bot d (childBoard b m) true alpha bt hbt)
            hab le_top
        · rw [if_pos rfl, if_pos rfl]
          unfold order_moves
          rw [← foldl_maxg_perm (fun m => minimaxPlain bot d (childBoard b m) false)
            (List.perm_insertionSort
              (fun m m' => move_priority bot b m' ≤ move_priority bot b m)
              (generate_legal_moves b b.current_player)) ⊥]
          exact abMaxFold_spec (fun m => minimaxPlain bot d (childBoard b m) false) _ alpha ⊥
            (fun m _ a ha => ab_plain_spec bot d (childBoard b m) false a beta ha)
            hab bot_le

/-- The root loop of `get_best_move`: with the window seeded at `(-inf, +inf)` the
reported best score is exactly the plain maximum of the children's exhaustive
values, and the chosen move's exhaustive value equals that score.  (`alpha` and
the running best score coincide at the root, so both are passed as `bs`.) -/
lemma bestFold_spec {f : ChessBoard → Score → Score → Score} {b : ChessBoard}
    (g : Move → Score) :
    ∀ (ms : List Move) (bm : Option Move) (bs : Score),
      (∀ m ∈ ms, ∀ a, a < ⊤ → ABspec (g m) (f (childBoard b m) a ⊤) a ⊤) →
      (∀ m ∈ ms, ∀ a, finS (f (childBoard b m) a ⊤)) →
      bs ≠ ⊤ →
      (∀ m', bm = some m' → g m' = bs) →
      (bestFold f b ms bm bs bs).2 = ms.foldl (fun x m => max x (g m)) bs ∧
      (∀ m', (bestFold f b ms bm bs bs).1 = some m' →
        g m' = (bestFold f b ms bm bs bs).2)
  | [], bm, bs, _, _, _, htrack => ⟨rfl, htrack⟩
  | m0 :: ms, bm, bs, hspec, hfin, hbs, htrack => by
    simp only [bestFold, List.foldl_cons]
    have hfin0 := hfin m0 (List.mem_cons_self m0 ms) bs
    have hspec0 := hspec m0 (List.mem_cons_self m0 ms) bs (lt_top_iff_ne_top.2 hbs)
    have hnotop : ¬ (⊤ : Score) ≤ max bs (f (childBoard b m0) bs ⊤) := by
      intro h
      rcases max_eq_top.1 (top_le_iff.1 h) with h | h
      · exact hbs h
      · exact hfin0.2 h
    rw [if_neg hnotop]
    by_cases hlt : bs < f (childBoard b m0) bs ⊤
    · rw [if_pos hlt]
      have hew : f (childBoard b m0) bs ⊤ = g m0 :=
        hspec0.2.2 hlt (lt_top_iff_ne_top.2 hfin0.2)
      have hmax : max bs (f (childBoard b m0) bs ⊤) = f (childBoard b m0) bs ⊤ :=
        max_eq_right (le_of_lt hlt)
      rw [hmax]
      have hih := bestFold_spec g ms (some m0) (f (childBoard b m0) bs ⊤)
        (fun m hm a ha => hspec m (List.mem_cons_of_mem m0 hm) a ha)
        (fun m hm a => hfin m (List.mem_cons_of_mem m0 hm) a)
        hfin0.2
        (fun m' hm' => by
          rcases Option.some_inj.1 hm' with rfl
          exact hew.symm)
      refine ⟨?_, hih.2⟩
      rw [hih.1, hew, max_eq_right (le_of_lt (hew ▸ hlt))]
    · rw [if_neg hlt]
      have hle : f (childBoard b m0) bs ⊤ ≤ bs := not_lt.1 hlt
      have hga : g m0 ≤ bs := hspec0.1 hle
      have hmax : max bs (f (childBoard b m0) bs ⊤) = bs := max_eq_left hle
      rw [hmax]
      have hih := bestFold_spec g ms bm bs
        (fun m hm a ha => hspec m (List.mem_cons_of_mem m0 hm) a ha)
        (fun m hm a => hfin m (List.mem_cons_of_mem m0 hm) a)
        hbs htrack
      refine ⟨?_, hih.2⟩
      rw [hih.1, max_eq_left hga]

end Helpers

/-- **C10**: `ChessBot.__init__` stores `max(1, min(difficulty, 6))`, which always
lies between 1 and 6. -/
theorem C10_difficulty_clamped (c : Color) (d : Int) :
    (mkBot c d).difficulty = max 1 (min d 6) ∧
    1 ≤ (mkBot c d).difficulty ∧ (mkBot c d).difficulty ≤ 6 := by
  refine ⟨rfl, le_max_left _ _, ?_⟩
  have h : min d 6 ≤ 6 := min_le_right _ _
  simp only [mkBot]
  omega

/-- **C8**: the simulation operations never disturb the position they are given.
`is_legal_move`, `generate_legal_moves` and `order_moves` work on values /
disposable copies only, so in this embedding they are plain functions of the
board; the one genuine mutation of the argument — `evaluate_position`'s
side-to-move toggle for the mobility term — is restored before returning, so the
board the call leaves behind is exactly the input board. -/
theorem C8_simulation_preserves_position (bot : ChessBot) (b : ChessBoard) :
    (evaluate_position bot b).2 = b := rfl

/-- **C1** (the code): on the quiet knight move g1→f3 from `knightB` (no pawn
move, no capture, halfmove clock 5), `make_move` succeeds yet resets the clock to
0 instead of incrementing it to 6 — the post-move occupancy test
`self.get_piece(to_row, to_col)` always sees the piece that just moved. -/
theorem C1_halfmove_reset_on_quiet_move :
    knightB.halfmove_clock = 5 ∧
    (make_move knightB knightMove true).1 = true ∧
    (make_move knightB knightMove true).2.halfmove_clock = 0 := by decide

/-- **C2** (amended): every move generated for the side to move leaves that
side's king out of check after simulation. -/
theorem C2_legal_moves_leave_own_king_safe (b : ChessBoard) (m : Move)
    (hm : m ∈ generate_legal_moves b b.current_player) :
    is_in_check (makeMoveBody b m).2 b.current_player = false := by
  have h : is_legal_move b m = true := List.of_mem_filter hm
  unfold is_legal_move at h
  simpa using h

/-- Witness for C2: the knight move g1→f3 is legal in `knightB` and indeed leaves
white's king safe. -/
theorem C2_witness :
    knightMove ∈ generate_legal_moves knightB knightB.current_player ∧
    is_in_check (makeMoveBody knightB knightMove).2 knightB.current_player = false :=
  ⟨by decide, C2_legal_moves_leave_own_king_safe knightB knightMove (by decide)⟩

/-- Counterexample for C2 as stated: for a side that is *not* the side to move the
filter tests the wrong king.  In `pinB` (white to move) the pinned black knight's
jump b8→c6 is returned by `generate_legal_moves(pinB, BLACK)` although it leaves
the black king in check. -/
theorem C2_counterexample :
    pinB.current_player = Color.white ∧
    pinMove ∈ generate_legal_moves pinB Color.black ∧
    is_in_check (makeMoveBody pinB pinMove).2 Color.black = true := by decide

/-- **C5** (amended): a halfmove clock of at least 100 yields the 50-move-rule
draw provided the side to move is neither checkmated nor stalemated (those two
checks run first in `is_game_over`). -/
theorem C5_fifty_move_draw (b : ChessBoard)
    (h100 : 100 ≤ b.halfmove_clock)
    (hcm : is_checkmate b b.current_player = false)
    (hsm : is_stalemate b b.current_player = false) :
    is_game_over b = some GameResult.fiftyDraw := by
  simp [is_game_over, hcm, hsm, h100]

/-- Witness for C5: two bare kings with the clock at 100 draw by the 50-move
rule. -/
theorem C5_witness :
    100 ≤ kingsB.halfmove_clock ∧ is_game_over kingsB = some GameResult.fiftyDraw :=
  ⟨by decide, C5_fifty_move_draw kingsB (by decide) (by decide) (by decide)⟩

/-- Counterexample for C5 as stated: in `mateB` the halfmove clock is 100 yet
`is_game_over` reports checkmate, not the no-progress draw — checkmate and
stalemate take priority over the 50-move rule. -/
theorem C5_counterexample :
    100 ≤ mateB.halfmove_clock ∧
    is_game_over mateB = some (GameResult.checkmateWin Color.white) ∧
    is_game_over mateB ≠ some GameResult.fiftyDraw := by decide

/-- **C9**: every successful `make_move` (with or without the legality gate)
leaves `en_passant_target` equal to `expectedEp`: the intermediate square when
the moved piece was a pawn advancing two rows, `none` otherwise.  The target is
recomputed unconditionally, so it never survives a subsequent applied move. -/
theorem C9_en_passant_recomputed (b : ChessBoard) (m : Move) (flag : Bool)
    (h : (make_move b m flag).1 = true) :
    (make_move b m flag).2.en_passant_target = expectedEp b m := by
  have hbody : (makeMoveBody b m).1 = true →
      (makeMoveBody b m).2.en_passant_target = expectedEp b m := by
    intro hb
    cases hp : get_piece b m.from_pos.1 m.from_pos.2 with
    | none =>
      exfalso
      unfold makeMoveBody at hb
      dsimp only at hb
      rw [hp] at hb
      exact Bool.false_ne_true hb
    | some piece =>
      have hf := (makeMoveBody_fields hp).2.2.1
      rw [hf]
      unfold expectedEp
      rw [hp]
  cases flag with
  | true =>
    rw [make_move_true] at h ⊢
    by_cases hc : ((generate_legal_moves b b.current_player).any fun lm => moveEqb m lm) = true
    · rw [if_pos hc] at h ⊢
      exact hbody h
    · rw [if_neg hc] at h
      exact absurd h Bool.false_ne_true
  | false =>
    rw [make_move_false] at h ⊢
    exact hbody h

/-- Witness for C9: the double pawn push d2→d4 in `pawnB` succeeds and leaves the
en-passant target on d3. -/
theorem C9_witness :
    (make_move pawnB pawnDouble true).1 = true ∧
    (make_move pawnB pawnDouble true).2.en_passant_target = some (5, 3) := by
  have h : (make_move pawnB pawnDouble true).1 = true := by decide
  refine ⟨h, ?_⟩
  rw [C9_en_passant_recomputed pawnB pawnDouble true h]
  decide

/-- **C4**: with the legality gate on, `make_move` either rejects a move that is
not in the current legal set — returning `False` and the board completely
untouched — or, when the move is in the legal set (under `Move.__eq__`),
succeeds and mutates the position, flipping the side to move. -/
theorem C4_make_move_legality_gate (b : ChessBoard) (m : Move) :
    (¬ ((generate_legal_moves b b.current_player).any fun lm => moveEqb m lm) = true →
      make_move b m true = (false, b)) ∧
    (((generate_legal_moves b b.current_player).any fun lm => moveEqb m lm) = true →
      (make_move b m true).1 = true ∧
      (make_move b m true).2.current_player = other b.current_player) := by
  constructor
  · intro hno
    rw [make_move_true, if_neg hno]
  · intro hyes
    obtain ⟨lm, hlm, heq⟩ := List.any_eq_true.1 hyes
    have hfrom : m.from_pos = lm.from_pos := by
      simp only [moveEqb, Bool.and_eq_true, beq_iff_eq] at heq
      exact heq.1.1
    obtain ⟨p, hp, _⟩ := legal_move_origin hlm
    rw [← hfrom] at hp
    have hfields := makeMoveBody_fields hp
    rw [make_move_true, if_pos hyes]
    exact ⟨hfields.1, hfields.2.1⟩

/-- Witness for C4: in `knightB`, the illegal jump g1→e4 is rejected with the
board unchanged, while the legal g1→f3 succeeds and hands the move to black. -/
theorem C4_witness :
    make_move knightB knightBadMove true = (false, knightB) ∧
    (make_move knightB knightMove true).1 = true ∧
    (make_move knightB knightMove true).2.current_player = other knightB.current_player :=
  ⟨(C4_make_move_legality_gate knightB knightBadMove).1 (by decide),
   (C4_make_move_legality_gate knightB knightMove).2 (by decide)⟩

/-- **C6**: whenever the terminal classifier reports a result, `minimax` returns
`10000 + depth` for a win of the bot's side, `-10000 - depth` for a loss and `0`
for either draw; and a node with no legal moves is always classified terminal, so
the non-terminal no-move case of the claim is vacuous (the dead
`if not legal_moves: return 0` branch). -/
theorem C6_terminal_scores (bot : ChessBot) (depth : Nat) (b : ChessBoard)
    (alpha beta : Score) (mz : Bool) :
    (∀ r, is_game_over b = some r →
      minimaxAB bot depth b alpha beta mz =
        (match r with
         | GameResult.checkmateWin w =>
           if w = bot.color then intScore (10000 + depth) else intScore (-10000 - depth)
         | _ => intScore 0)) ∧
    (generate_legal_moves b b.current_player = [] → is_game_over b ≠ none) := by
  constructor
  · intro r hr
    rw [minimaxAB_terminal bot depth b alpha beta mz hr]
    cases r <;> rfl
  · intro hempty
    unfold is_game_over is_checkmate is_stalemate
    rw [hempty]
    cases hc : is_in_check b b.current_player <;> simp [hc]

/-- **C7** (amended): for every difficulty 1–6, `get_best_move` returns `None`
exactly when the *bot's own colour* (`self.color`) has no legal moves, and any
returned move belongs to that colour's legal move set — at difficulty 1 via
`random.choice`, at higher difficulties via the search loop. -/
theorem C7_best_move_membership (c : Color) (d : Int) (seed : Nat) (b : ChessBoard)
    (_h1 : 1 ≤ d) (_h6 : d ≤ 6) :
    (get_best_move (mkBot c d) seed b = none ↔ generate_legal_moves b c = []) ∧
    (∀ m, get_best_move (mkBot c d) seed b = some m → m ∈ generate_legal_moves b c) := by
  unfold get_best_move
  dsimp only [mkBot]
  by_cases hleg : (generate_legal_moves b c).isEmpty = true
  · rw [if_pos hleg]
    have h0 := List.isEmpty_iff.1 hleg
    constructor
    · simp [h0]
    · intro m hm
      exact absurd hm (by simp)
  · rw [if_neg hleg]
    have h0 : generate_legal_moves b c ≠ [] := by
      intro hx
      exact hleg (by simp [hx])
    split
    · -- difficulty 1: random.choice
      constructor
      · constructor
        · intro hn
          unfold random_choice at hn
          have hlt : seed % (generate_legal_moves b c).length < (generate_legal_moves b c).length :=
            Nat.mod_lt _ (List.length_pos.2 h0)
          rw [List.get?_eq_get hlt] at hn
          exact absurd hn (by simp)
        · intro hx
          exact absurd hx h0
      · intro m hm
        unfold random_choice at hm
        exact List.get?_mem hm
    · -- the alpha-beta search loop
      have hs : ((get_best_core { color := c, difficulty := max 1 (min d 6) } b).1).isSome := by
        unfold get_best_core
        dsimp only
        exact bestFold_isSome (fun c' a bt => minimaxAB_fin _ _ _ _ _ _) _ _ _ _
          (Or.inr ⟨rfl, order_moves_ne_nil h0⟩)
      constructor
      · constructor
        · intro hn
          rw [hn] at hs
          exact absurd hs (by simp)
        · intro hx
          exact absurd hx h0
      · intro m hm
        unfold get_best_core at hm
        dsimp only at hm
        rcases bestFold_mem _ _ _ _ _ hm with h' | h'
        · exact absurd h' (by simp)
        · exact (List.perm_insertionSort _ _).subset h'

/-- Witness for C7: in `cornerB` white's single legal move Kg1 is returned at
difficulty 1 and is a member of white's legal move set. -/
theorem C7_witness :
    (1 : Int) ≤ 1 ∧ (1 : Int) ≤ 6 ∧
    ({ from_pos := ((7 : Int), (7 : Int)), to_pos := ((7 : Int), (6 : Int)) } : Move) ∈
      generate_legal_moves cornerB Color.white :=
  ⟨by decide, by decide,
    (C7_best_move_membership Color.white 1 0 cornerB (by decide) (by decide)).2 _ (by decide)⟩

/-- Counterexample for C7 as stated: in `staleB` the side to move (white) is
stalemated — no legal moves — yet a black bot's `get_best_move` still returns a
move, because the legal-move test uses `self.color`, not the side to move. -/
theorem C7_counterexample :
    generate_legal_moves staleB staleB.current_player = [] ∧
    get_best_move (mkBot Color.black 1) 0 staleB ≠ none := by decide

/-- **C3** (amended): for every position and every difficulty 2 through 6,
`get_best_move` runs the alpha-beta search (`get_best_core`); the best score the
pruned, move-ordered search reports equals the exhaustive non-pruned minimax
score of the position at the same depth, and the chosen move's exhaustive
minimax value equals that score — pruning and ordering never change the result.
(At difficulty 1 `get_best_move` plays a uniformly random legal move and computes
no score, so the equality does not extend there; see the counterexample.) -/
theorem C3_alpha_beta_equivalence (c : Color) (d : Int) (seed : Nat) (b : ChessBoard)
    (h2 : 2 ≤ d) (h6 : d ≤ 6) :
    get_best_move (mkBot c d) seed b = (get_best_core (mkBot c d) b).1 ∧
    (get_best_core (mkBot c d) b).2 = best_score_plain (mkBot c d) b ∧
    (∀ m, (get_best_core (mkBot c d) b).1 = some m →
      minimaxPlain (mkBot c d) ((mkBot c d).difficulty - 1).toNat (childBoard b m) false =
        best_score_plain (mkBot c d) b) := by
  have hperm : (order_moves (mkBot c d) b (generate_legal_moves b (mkBot c d).color)).Perm
      (generate_legal_moves b (mkBot c d).color) :=
    List.perm_insertionSort _ _
  have hcore2 : (get_best_core (mkBot c d) b).2 =
      (order_moves (mkBot c d) b (generate_legal_moves b (mkBot c d).color)).foldl
        (fun x m => max x
          (minimaxPlain (mkBot c d) ((mkBot c d).difficulty - 1).toNat (childBoard b m) false)) ⊥ ∧
      (∀ m', (get_best_core (mkBot c d) b).1 = some m' →
        minimaxPlain (mkBot c d) ((mkBot c d).difficulty - 1).toNat (childBoard b m') false =
          (get_best_core (mkBot c d) b).2) := by
    unfold get_best_core
    dsimp only
    exact bestFold_spec
      (fun m => minimaxPlain (mkBot c d) ((mkBot c d).difficulty - 1).toNat (childBoard b m) false)
      _ none ⊥
      (fun m _ a ha =>
        ab_plain_spec (mkBot c d) ((mkBot c d).difficulty - 1).toNat (childBoard b m) false a ⊤ ha)
      (fun m _ a => minimaxAB_fin _ _ _ _ _ _)
      (by simp)
      (fun m' hm' => by exact absurd hm' (by simp))
  have hscore : (get_best_core (mkBot c d) b).2 = best_score_plain (mkBot c d) b := by
    rw [hcore2.1]
    unfold best_score_plain
    exact foldl_maxg_perm
      (fun m => minimaxPlain (mkBot c d) ((mkBot c d).difficulty - 1).toNat (childBoard b m) false)
      hperm ⊥
  refine ⟨?_, hscore, ?_⟩
  · unfold get_best_move
    dsimp only [mkBot]
    by_cases hleg : (generate_legal_moves b c).isEmpty = true
    · rw [if_pos hleg]
      have h0 := List.isEmpty_iff.1 hleg
      unfold get_best_core
      dsimp only
      rw [h0]
      rfl
    · rw [if_neg hleg]
      have hd1 : ¬ ((max 1 (min d 6) : Int) = 1) := by
        rw [min_eq_left h6, max_eq_right (le_trans one_le_two h2)]
        omega
      rw [if_neg hd1]
  · intro m hm
    rw [hcore2.2 m hm]
    exact hscore

/-- Witness for C3: in `cornerB` (one legal white move) at difficulty 2, the
pruned search score matches the exhaustive score and the chosen move Kg1 attains
it. -/
theorem C3_witness :
    (2 : Int) ≤ 2 ∧ (2 : Int) ≤ 6 ∧
    get_best_move (mkBot Color.white 2) 0 cornerB = (get_best_core (mkBot Color.white 2) cornerB).1 ∧
    (get_best_core (mkBot Color.white 2) cornerB).2 = best_score_plain (mkBot Color.white 2) cornerB ∧
    minimaxPlain (mkBot Color.white 2) ((mkBot Color.white 2).difficulty - 1).toNat
        (childBoard cornerB { from_pos := (7, 7), to_pos := (7, 6) }) false =
      best_score_plain (mkBot Color.white 2) cornerB :=
  ⟨by decide, by decide,
   (C3_alpha_beta_equivalence Color.white 2 0 cornerB (by decide) (by decide)).1,
   (C3_alpha_beta_equivalence Color.white 2 0 cornerB (by decide) (by decide)).2.1,
   (C3_alpha_beta_equivalence Color.white 2 0 cornerB (by decide) (by decide)).2.2
     { from_pos := (7, 7), to_pos := (7, 6) } (by decide)⟩

/-- Counterexample for C3 as stated: at difficulty 1 (a reachable position — the
initial one), `get_best_move` returns a random legal move (here a2→a3 for the
seed 0) whose exhaustive minimax value (-10) differs from the exhaustive best
score (at least 160, attained by e2→e4): no score is computed, and the claimed
equality fails at depth 1. -/
theorem C3_counterexample :
    get_best_move (mkBot Color.white 1) 0 initialBoard = some moveA3 ∧
    minimaxPlain (mkBot Color.white 1) ((mkBot Color.white 1).difficulty - 1).toNat
        (childBoard initialBoard moveA3) false ≠
      best_score_plain (mkBot Color.white 1) initialBoard := by
  constructor
  · decide
  · have h1 : minimaxPlain (mkBot Color.white 1) ((mkBot Color.white 1).difficulty - 1).toNat
        (childBoard initialBoard moveA3) false = intScore (-10) := by decide
    have h2 : minimaxPlain (mkBot Color.white 1) ((mkBot Color.white 1).difficulty - 1).toNat
        (childBoard initialBoard moveE4) false = intScore 160 := by decide
    have hmem : moveE4 ∈ generate_legal_moves initialBoard (mkBot Color.white 1).color := by decide
    have hle : intScore 160 ≤ best_score_plain (mkBot Color.white 1) initialBoard := by
      rw [← h2]
      unfold best_score_plain
      exact foldl_maxg_mem
        (fun m => minimaxPlain (mkBot Color.white 1) ((mkBot Color.white 1).difficulty - 1).toNat
          (childBoard initialBoard m) false)
        _ ⊥ moveE4 hmem
    intro heq
    rw [h1] at heq
    rw [← heq] at hle
    exact absurd hle (by decide)

/-- Witness for C6: `mateB` is checkmate for white (the bot's colour), has no
legal moves for the side to move, and `minimax` at remaining depth 4 scores it
`10000 + 4`. -/
theorem C6_witness :
    is_game_over mateB = some (GameResult.checkmateWin Color.white) ∧
    minimaxAB (mkBot Color.white 3) 4 mateB ⊥ ⊤ true = intScore 10004 ∧
    generate_legal_moves mateB mateB.current_player = [] ∧
    is_game_over mateB ≠ none := by
  have h1 : is_game_over mateB = some (GameResult.checkmateWin Color.white) := by decide
  refine ⟨h1, ?_, by decide, (C6_terminal_scores (mkBot Color.white 3) 4 mateB ⊥ ⊤ true).2 (by decide)⟩
  rw [(C6_terminal_scores (mkBot Color.white 3) 4 mateB ⊥ ⊤ true).1 _ h1]
  decide

end Chess
